import Mathlib

/-!
# Verification of the `twilio` TwiML helper library

A shallow embedding of `twilio.go`: the `Context` interface (`Value`,
`IntValue`, `Response`, `Responsef`, `Hangup`), the concrete `context`
implementation, and `HandlerFunc.ServeHTTP`, which seeds a buffer with the
XML prolog and opening `<Response>` tag, runs the handler, appends the
closing tag and flushes the whole buffer to the transport in one write.

The inbound request is modelled as its bag of form parameters (an
association list of string key/value pairs, looked up first-match as Go's
`Request.FormValue` does).  A handler is modelled as a free-monad-style
program over the five `Context` operations, so that the fragments it
appends may depend on the form values it reads.  The transport response
writer is modelled as its header list, status code and the list of `Write`
calls issued to it.
-/

namespace Twilio

/-- The inbound request, as the bag of key/value string form parameters
that `net/http`'s `Request.FormValue` exposes (first value wins). -/
abbrev Request := List (String × String)

/-- Go `Request.FormValue key`: the first form value for `key`, or the
empty string when `key` is absent. -/
def FormValue (r : Request) (key : String) : String :=
  match r.find? (fun p => p.1 == key) with
  | some p => p.2
  | none => ""

/-- The numeric value of a non-empty, all-digit character list; `none` if
the list is empty or contains a non-digit.  Accumulator form mirrors the
digit loop of Go `strconv.ParseUint` (base 10, no underscores). -/
def digitsValAux : List Char → Nat → Option Nat
  | [], acc => some acc
  | c :: cs, acc =>
    if c.isDigit then digitsValAux cs (acc * 10 + (c.toNat - 48)) else none

/-- `digitsVal? ds` is the base-10 value of `ds`, or `none` when `ds` is
empty or contains a character outside `0`-`9`. -/
def digitsVal? : List Char → Option Nat
  | [] => none
  | c :: cs => digitsValAux (c :: cs) 0

/-- Modelled from the Go standard library: `strconv.Atoi`, i.e.
`ParseInt(s, 10, 0)` with the error discarded, on a 64-bit platform.
Per the `strconv` documentation: an optional leading `+`/`-` sign followed
by decimal digits; a syntax error yields 0; a value outside the signed
64-bit range yields the range boundary (`ParseUint` first saturates the
magnitude at `2^64 - 1`, then `ParseInt` clamps to `2^63 - 1` /
`-(2^63)`), not 0. -/
def Atoi (s : String) : Int :=
  match s.data with
  | [] => 0
  | c :: cs =>
    let neg := c = '-'
    let ds := if c = '+' ∨ c = '-' then cs else c :: cs
    match digitsVal? ds with
    | none => 0
    | some n =>
      let un : Nat := min n (2 ^ 64 - 1)
      if neg then
        if un > 2 ^ 63 then -(2 ^ 63) else -(un : Int)
      else
        if un ≥ 2 ^ 63 then 2 ^ 63 - 1 else (un : Int)

/-- A string read as an optionally signed base-10 numeral, to its exact
integer value; `none` when the string is not such a numeral.  This is the
"form value parsed as a base-10 integer" of the specification, with no
machine-range restriction, stated for comparison with `Atoi`. -/
def decimalValue? (s : String) : Option Int :=
  match s.data with
  | [] => none
  | c :: cs =>
    let neg := c = '-'
    let ds := if c = '+' ∨ c = '-' then cs else c :: cs
    match digitsVal? ds with
    | none => none
    | some n => some (if neg then -(n : Int) else (n : Int))

/-- An argument passed to `Responsef`, restricted to the string and
integer cases the claims exercise (Go `interface{}` values). -/
inductive Arg
  | str (s : String)
  | int (n : Int)
deriving DecidableEq

/-- Rendering of one argument under one verb, following Go `fmt`:
`%s` on a string is the string itself, `%d` on an integer is its decimal
form, and a mismatched verb/argument pair renders as inline
`%!verb(type=value)` error text. -/
def formatArg (verb : Char) : Arg → String
  | .str s =>
    if verb = 's' then s else "%!" ++ String.singleton verb ++ "(string=" ++ s ++ ")"
  | .int n =>
    if verb = 'd' then toString n
    else "%!" ++ String.singleton verb ++ "(int=" ++ toString n ++ ")"

/-- Modelled from the Go standard library: `fmt.Sprintf` restricted to the
`%s`, `%d` and `%%` directives (the only ones the claims exercise).
A directive with no remaining argument renders as `%!verb(MISSING)` and a
trailing bare `%` as `%!(NOVERB)`, per the `fmt` documentation; surplus
arguments are not modelled. -/
def sprintfAux : List Char → List Arg → String
  | [], _ => ""
  | ['%'], _ => "%!(NOVERB)"
  | '%' :: '%' :: rest, args => "%" ++ sprintfAux rest args
  | '%' :: v :: rest, args =>
    match args with
    | [] => "%!" ++ String.singleton v ++ "(MISSING)" ++ sprintfAux rest []
    | a :: args' => formatArg v a ++ sprintfAux rest args'
  | c :: rest, args => String.singleton c ++ sprintfAux rest args

/-- Go `fmt.Sprintf` on a format string and argument list (see
`sprintfAux`). -/
def Sprintf (format : String) (args : List Arg) : String :=
  sprintfAux format.data args

/-- A handler function, as a program over the `Context` interface: it may
read form values (`value`, `intValue`), append response fragments
(`response`, `responsef`, `hangup`), and return.  Continuations of the
reading operations receive the value read, so appended fragments may
depend on the request. -/
inductive Handler
  | done
  | value (key : String) (k : String → Handler)
  | intValue (key : String) (k : Int → Handler)
  | response (s : String) (k : Handler)
  | responsef (format : String) (args : List Arg) (k : Handler)
  | hangup (k : Handler)

/-- The transport's `http.ResponseWriter`: its header map, the status code
written (if any), and the sequence of `Write` calls issued to it. -/
structure ResponseWriter where
  headers : List (String × String)
  status : Option Nat
  writes : List String
deriving DecidableEq

/-- A fresh response writer: no headers set, no status written, no bytes
written. -/
def ResponseWriter.fresh : ResponseWriter :=
  { headers := [], status := none, writes := [] }

/-- The state of one `ServeHTTP` invocation: the request `r` and buffer
`b` held by the `context` struct, plus the transport response writer
`w`. -/
structure ServeState where
  req : Request
  buf : String
  w : ResponseWriter
deriving DecidableEq

namespace context

/-- `context.Value`: `return c.r.FormValue(key)`. -/
def Value (st : ServeState) (key : String) : String :=
  FormValue st.req key

/-- `context.IntValue`: `i, _ := strconv.Atoi(c.r.FormValue(key)); return i`. -/
def IntValue (st : ServeState) (key : String) : Int :=
  Atoi (FormValue st.req key)

/-- `context.Response`: `c.b.WriteString(s)` — appends `s` to the buffer,
touching neither the request nor the transport writer. -/
def Response (st : ServeState) (s : String) : ServeState :=
  { st with buf := st.buf ++ s }

/-- `context.Responsef`: `c.Response(fmt.Sprintf(format, args...))`. -/
def Responsef (st : ServeState) (format : String) (args : List Arg) : ServeState :=
  Response st (Sprintf format args)

/-- `context.Hangup`: `c.Response("<Hangup/>")`. -/
def Hangup (st : ServeState) : ServeState :=
  Response st "<Hangup/>"

end context

/-- Execution of a handler body against a `context`: each operation is
interpreted by the corresponding `context` method. -/
def run : Handler → ServeState → ServeState
  | .done, st => st
  | .value key k, st => run (k (context.Value st key)) st
  | .intValue key k, st => run (k (context.IntValue st key)) st
  | .response s k, st => run k (context.Response st s)
  | .responsef format args k, st => run k (context.Responsef st format args)
  | .hangup k, st => run k (context.Hangup st)

/-- The source constant `start`: the fixed envelope prefix. -/
def start : String := "<?xml version=\"1.0\" encoding=\"UTF-8\"?><Response>"

/-- The source constant `end` (a Lean keyword, hence the name): the fixed
envelope suffix. -/
def endTag : String := "</Response>"

/-- `HandlerFunc.ServeHTTP`, returning the full final state:
`b := bytes.NewBufferString(start); fn(&context{b, r}); b.WriteString(end);
b.WriteTo(w)`.  `Buffer.WriteTo` hands the whole buffer to `w.Write` in a
single call and drains the buffer. -/
def ServeHTTPRun (fn : Handler) (w : ResponseWriter) (r : Request) : ServeState :=
  let st := run fn { req := r, buf := start, w := w }
  { st with
    buf := ""
    w := { st.w with writes := st.w.writes ++ [st.buf ++ endTag] } }

/-- `HandlerFunc.ServeHTTP` as seen by the transport: the resulting
response-writer state. -/
def ServeHTTP (fn : Handler) (w : ResponseWriter) (r : Request) : ResponseWriter :=
  (ServeHTTPRun fn w r).w

/-- The strings appended via `Response`/`Responsef`/`Hangup` during a run
of the handler against request `r`, in call order. -/
def fragments : Handler → Request → List String
  | .done, _ => []
  | .value key k, r => fragments (k (FormValue r key)) r
  | .intValue key k, r => fragments (k (Atoi (FormValue r key))) r
  | .response s k, r => s :: fragments k r
  | .responsef format args k, r => Sprintf format args :: fragments k r
  | .hangup k, r => "<Hangup/>" :: fragments k r

/-- Concatenation of a fragment list, with no inserted separators. -/
def concatFrags : List String → String
  | [] => ""
  | s :: l => s ++ concatFrags l

/-! ## The per-request lifecycle as an event trace

`ServeHTTP` runs are decomposed into the buffer-append events issued by the
`context` methods followed by the single close/flush step performed after
the handler returns; the state machine Opened → Accumulating → Closed of
the request lifecycle is made explicit and the actual execution is shown
to be one of its accepted traces. -/

/-- An observable event of one request cycle: a fragment appended to the
buffer by `context.Response` (also on behalf of `Responsef`/`Hangup`), or
the final close/flush (`b.WriteString(end); b.WriteTo(w)`). -/
inductive Event
  | append (s : String)
  | close
deriving DecidableEq

/-- The effect of one event on the serve state.  An append touches only
the buffer; the close appends the closing tag, flushes the whole buffer to
the transport in one write, and drains the buffer. -/
def applyEvent (st : ServeState) : Event → ServeState
  | .append s => context.Response st s
  | .close =>
    { st with
      buf := ""
      w := { st.w with writes := st.w.writes ++ [st.buf ++ endTag] } }

/-- The event trace of `ServeHTTP fn _ r`: the appended fragments, in call
order, followed by the single close. -/
def eventsOf (fn : Handler) (r : Request) : List Event :=
  (fragments fn r).map Event.append ++ [Event.close]

/-- Lifecycle phases of one request. -/
inductive Phase
  | opened
  | accumulating
  | closed
deriving DecidableEq

/-- The lifecycle state machine: `opened` and `accumulating` admit appends
(moving to `accumulating`) and the close (moving to `closed`); `closed` is
terminal — no event is admitted, so there is no transition back. -/
def machineStep : Phase → Event → Option Phase
  | .opened, .append _ => some .accumulating
  | .opened, .close => some .closed
  | .accumulating, .append _ => some .accumulating
  | .accumulating, .close => some .closed
  | .closed, _ => none

/-- Run of the lifecycle machine over a trace: `some p` when accepted
ending in phase `p`, `none` when some event is not admitted. -/
def machineRun : Phase → List Event → Option Phase
  | p, [] => some p
  | p, e :: es =>
    match machineStep p e with
    | some p' => machineRun p' es
    | none => none

/-! ## Shared lemmas -/

/-- Running a handler only appends, to the buffer, the concatenation of
its fragments: the request and the transport writer are untouched. -/
theorem run_eq : ∀ (fn : Handler) (st : ServeState),
    run fn st = { st with buf := st.buf ++ concatFrags (fragments fn st.req) }
  | .done, st => by
    simp [run, fragments, concatFrags, String.append_empty]
  | .value key k, st => run_eq (k (context.Value st key)) st
  | .intValue key k, st => run_eq (k (context.IntValue st key)) st
  | .response s k, st => by
    have ih := run_eq k (context.Response st s)
    simp only [run, fragments, concatFrags, context.Response] at ih ⊢
    rw [ih, String.append_assoc]
  | .responsef format args k, st => by
    have ih := run_eq k (context.Responsef st format args)
    simp only [run, fragments, concatFrags, context.Responsef, context.Response] at ih ⊢
    rw [ih, String.append_assoc]
  | .hangup k, st => by
    have ih := run_eq k (context.Hangup st)
    simp only [run, fragments, concatFrags, context.Hangup, context.Response] at ih ⊢
    rw [ih, String.append_assoc]

/-- Closed form of a whole `ServeHTTP` run. -/
theorem serveHTTPRun_eq (fn : Handler) (w : ResponseWriter) (r : Request) :
    ServeHTTPRun fn w r =
      { req := r
        buf := ""
        w := { w with
               writes := w.writes ++ [start ++ (concatFrags (fragments fn r) ++ endTag)] } } := by
  simp only [ServeHTTPRun, run_eq, String.append_assoc]

/-- The accumulating phase accepts any run of appends followed by the
close, ending closed. -/
theorem machineRun_accumulating (l : List String) :
    machineRun Phase.accumulating (l.map Event.append ++ [Event.close]) =
      some Phase.closed := by
  induction l with
  | nil => rfl
  | cons s l ih => simpa [machineRun, machineStep] using ih

/-- The opened phase accepts any run of appends followed by the close,
ending closed. -/
theorem machineRun_opened (l : List String) :
    machineRun Phase.opened (l.map Event.append ++ [Event.close]) =
      some Phase.closed := by
  cases l with
  | nil => rfl
  | cons s l => simpa [machineRun, machineStep] using machineRun_accumulating l

/-- Folding append events only appends their concatenation to the
buffer. -/
theorem foldl_append_events (l : List String) : ∀ st : ServeState,
    (l.map Event.append).foldl applyEvent st =
      { st with buf := st.buf ++ concatFrags l } := by
  induction l with
  | nil =>
    intro st
    simp [concatFrags, String.append_empty]
  | cons s l ih =>
    intro st
    simp only [List.map_cons, List.foldl_cons, applyEvent, context.Response, ih,
      concatFrags, String.append_assoc]

/-- `FormValue` on a request that does not contain the key is the empty
string. -/
theorem FormValue_absent (r : Request) (key : String)
    (h : ∀ p ∈ r, p.1 ≠ key) : FormValue r key = "" := by
  unfold FormValue
  rw [List.find?_eq_none.mpr]
  intro p hp
  simpa using h p hp

/-- `FormValue` on a request containing the key (first at this position)
returns the associated value. -/
theorem FormValue_present (pre post : Request) (key v : String)
    (h : ∀ p ∈ pre, p.1 ≠ key) :
    FormValue (pre ++ (key, v) :: post) key = v := by
  induction pre with
  | nil => simp [FormValue]
  | cons q pre ih =>
    have hq : (q.1 == key) = false := by
      simpa using h q (List.mem_cons_self q pre)
    have hrest : ∀ p ∈ pre, p.1 ≠ key := fun p hp => h p (List.mem_cons_of_mem q hp)
    simpa [FormValue, List.find?, hq] using ih hrest

/-- `Atoi` is `decimalValue?` saturated to the signed 64-bit range, and 0
on a syntactically invalid numeral. -/
theorem Atoi_eq_clamp (s : String) :
    Atoi s =
      match decimalValue? s with
      | none => 0
      | some v => max (-(2 ^ 63)) (min v (2 ^ 63 - 1)) := by
  unfold Atoi decimalValue?
  cases hd : s.data with
  | nil => rfl
  | cons c cs =>
    simp only
    cases hdg : digitsVal? (if c = '+' ∨ c = '-' then cs else c :: cs) with
    | none => simp
    | some n =>
      simp only [Nat.min_def, Int.min_def, Int.max_def]
      split_ifs <;> first | rfl | (push_cast ; omega)

/-! ## The claims -/

/-- C1: for every request and every handler, the body written to the
transport by `ServeHTTP` equals the fixed prefix
`<?xml version="1.0" encoding="UTF-8"?><Response>`, followed by the
concatenation, in call order and with no inserted separators, of exactly
the strings appended via `Response`, `Responsef` and `Hangup` during that
handler invocation, followed by `</Response>`. -/
theorem serveHTTP_wire_payload (fn : Handler) (w : ResponseWriter) (r : Request) :
    start = "<?xml version=\"1.0\" encoding=\"UTF-8\"?><Response>" ∧
    endTag = "</Response>" ∧
    (ServeHTTP fn w r).writes =
      w.writes ++ [start ++ (concatFrags (fragments fn r) ++ endTag)] := by
  refine ⟨rfl, rfl, ?_⟩
  simp [ServeHTTP, serveHTTPRun_eq]

/-- C2: `ServeHTTP` is the buffered policy: the handler's run leaves the
transport writer untouched (no bytes are written before the handler
returns), and the whole envelope — opening tag pre-seeded into the buffer,
closing tag appended after the handler returns — reaches the transport in
exactly one write, so the transport never observes a partially-closed
envelope. -/
theorem serveHTTP_buffered_single_write (fn : Handler) (w : ResponseWriter) (r : Request) :
    (run fn { req := r, buf := start, w := w }).w = w ∧
    (ServeHTTP fn w r).writes =
      w.writes ++ [start ++ (concatFrags (fragments fn r) ++ endTag)] := by
  constructor
  · rw [run_eq]
  · simp [ServeHTTP, serveHTTPRun_eq]

/-- C3: the per-request lifecycle is the machine
Opened → Accumulating → Closed: the event trace of every `ServeHTTP` run
is accepted by the machine and ends in the terminal `closed` phase; from
`closed` no event is admitted (no transition back); an append event never
changes the transport writer, so an attempted append after the close is a
no-op with respect to the wire payload; and folding the events from the
opened state is exactly the `ServeHTTP` run. -/
theorem serveHTTP_lifecycle_state_machine (fn : Handler) (w : ResponseWriter) (r : Request) :
    machineRun Phase.opened (eventsOf fn r) = some Phase.closed ∧
    (∀ e, machineStep Phase.closed e = none) ∧
    (∀ (st : ServeState) (s : String), (applyEvent st (Event.append s)).w = st.w) ∧
    (eventsOf fn r).foldl applyEvent { req := r, buf := start, w := w } =
      ServeHTTPRun fn w r := by
  refine ⟨machineRun_opened _, ?_, ?_, ?_⟩
  · intro e
    cases e <;> rfl
  · intro st s
    rfl
  · rw [eventsOf, List.foldl_append, foldl_append_events]
    simp [applyEvent, serveHTTPRun_eq, String.append_assoc]

/-- C4 (counterexample): on a request with
`x=9223372036854775808` — a syntactically valid base-10 numeral one past
the signed 64-bit range — `IntValue("x")` returns 9223372036854775807:
neither 0 (as the claim requires of a value that is not a valid integer)
nor the parsed value. -/
theorem intValue_claim_counterexample :
    context.IntValue
        { req := [("x", "9223372036854775808")], buf := start, w := ResponseWriter.fresh }
        "x" = 9223372036854775807 ∧
    decimalValue? "9223372036854775808" = some 9223372036854775808 ∧
    (9223372036854775807 : Int) ≠ 0 ∧
    (9223372036854775807 : Int) ≠ 9223372036854775808 := by
  refine ⟨rfl, rfl, by decide, by decide⟩

/-- C4 (amended): `IntValue(key)` returns the form value parsed as an
optionally signed base-10 integer saturated to the signed 64-bit range
`[-2^63, 2^63 - 1]`, and 0 whenever the key is absent or the value is not
syntactically a base-10 numeral; in particular on `x=abc` it returns 0 and
on `x=42` it returns 42, the parse failure being swallowed, never
surfaced as an error. -/
theorem intValue_saturating_spec (st : ServeState) (key : String) :
    (context.IntValue st key =
      match decimalValue? (FormValue st.req key) with
      | none => 0
      | some v => max (-(2 ^ 63)) (min v (2 ^ 63 - 1))) ∧
    context.IntValue
        { req := [("x", "abc")], buf := start, w := ResponseWriter.fresh } "x" = 0 ∧
    context.IntValue
        { req := [("x", "42")], buf := start, w := ResponseWriter.fresh } "x" = 42 := by
  exact ⟨Atoi_eq_clamp (FormValue st.req key), rfl, rfl⟩

/-- C5: `Value(key)` returns the request's form value associated with
`key`, and the empty string when the key is not present; it is a total
function — absence of the key is not an error condition. -/
theorem value_spec (st : ServeState) (key : String) :
    ((∀ p ∈ st.req, p.1 ≠ key) → context.Value st key = "") ∧
    (∀ (pre post : Request) (v : String),
      st.req = pre ++ (key, v) :: post → (∀ p ∈ pre, p.1 ≠ key) →
      context.Value st key = v) := by
  constructor
  · intro h
    exact FormValue_absent st.req key h
  · intro pre post v hreq hpre
    unfold context.Value
    rw [hreq]
    exact FormValue_present pre post key v hpre

/-- Witness for C5 at a concrete request: key `x` present with value `7`,
and key `x` absent. -/
theorem value_spec_witness :
    context.Value
        { req := [("a", "1"), ("x", "7")], buf := start, w := ResponseWriter.fresh } "x" = "7" ∧
    context.Value
        { req := [("a", "1")], buf := start, w := ResponseWriter.fresh } "x" = "" := by
  constructor
  · exact (value_spec
      { req := [("a", "1"), ("x", "7")], buf := start, w := ResponseWriter.fresh } "x").2
      [("a", "1")] [] "7" rfl (by decide)
  · exact (value_spec
      { req := [("a", "1")], buf := start, w := ResponseWriter.fresh } "x").1 (by decide)

/-- C6: `Responsef(format, args...)` appends exactly the string produced
by formatting `args` according to `format` and is the same state
transformation as `Response` of that formatted string; in particular
`Responsef("<Say>%s</Say>", "Hello")` produces output identical to
`Response("<Say>Hello</Say>")`. -/
theorem responsef_eq_response_sprintf (format : String) (args : List Arg)
    (k : Handler) (st : ServeState) (w : ResponseWriter) (r : Request) :
    run (.responsef format args k) st = run (.response (Sprintf format args) k) st ∧
    Sprintf "<Say>%s</Say>" [Arg.str "Hello"] = "<Say>Hello</Say>" ∧
    ServeHTTP (.responsef "<Say>%s</Say>" [Arg.str "Hello"] .done) w r =
      ServeHTTP (.response "<Say>Hello</Say>" .done) w r := by
  exact ⟨rfl, rfl, rfl⟩

/-- C7: `Hangup()` is the same state transformation as
`Response("<Hangup/>")`, and a handler that calls `Hangup()` and nothing
else produces exactly the wire payload
`<?xml version="1.0" encoding="UTF-8"?><Response><Hangup/></Response>`. -/
theorem hangup_eq_response (k : Handler) (st : ServeState)
    (w : ResponseWriter) (r : Request) :
    run (.hangup k) st = run (.response "<Hangup/>" k) st ∧
    (ServeHTTP (.hangup .done) w r).writes =
      w.writes ++
        ["<?xml version=\"1.0\" encoding=\"UTF-8\"?><Response><Hangup/></Response>"] := by
  exact ⟨rfl, rfl⟩

/-- C8: the inbound request is never mutated: running any handler — hence
any sequence of `Value`/`IntValue`/`Response`/`Responsef`/`Hangup` calls —
leaves the request component of the state unchanged, and a whole
`ServeHTTP` run ends with the request it started with. -/
theorem request_unchanged (fn : Handler) (st : ServeState)
    (w : ResponseWriter) (r : Request) :
    (run fn st).req = st.req ∧ (ServeHTTPRun fn w r).req = r := by
  constructor
  · rw [run_eq]
  · rw [serveHTTPRun_eq]

/-- C9: `ServeHTTP` writes only the response body: for every request and
handler the response writer's header state and status code are exactly
what they were before, i.e. left at the transport defaults. -/
theorem serveHTTP_no_headers_no_status (fn : Handler) (w : ResponseWriter) (r : Request) :
    (ServeHTTP fn w r).headers = w.headers ∧
    (ServeHTTP fn w r).status = w.status := by
  constructor <;> simp [ServeHTTP, serveHTTPRun_eq]

/-- C10: `Response` and `Responsef` perform no XML escaping, sanitization
or well-formedness validation: for every string `s` the exact bytes of `s`
(and, for `Responsef`, of the formatted string) appear unmodified between
the fixed opening and closing tags; in particular appending
`</Response>` yields the non-well-formed payload
`<?xml version="1.0" encoding="UTF-8"?><Response></Response></Response>`. -/
theorem response_no_escaping (s format : String) (args : List Arg)
    (w : ResponseWriter) (r : Request) :
    (ServeHTTP (.response s .done) w r).writes =
      w.writes ++ [start ++ (s ++ endTag)] ∧
    (ServeHTTP (.responsef format args .done) w r).writes =
      w.writes ++ [start ++ (Sprintf format args ++ endTag)] ∧
    (ServeHTTP (.response "</Response>" .done) ResponseWriter.fresh r).writes =
      ["<?xml version=\"1.0\" encoding=\"UTF-8\"?><Response></Response></Response>"] := by
  refine ⟨?_, ?_, rfl⟩ <;>
    simp [ServeHTTP, serveHTTPRun_eq, fragments, concatFrags, String.append_empty]

end Twilio
